import Mathlib

/-!
Verification of a toy rendering engine: CSS selector matching and cascade
(`css.rs`, `style.rs`) and layout-tree construction with block layout
(`boxes.rs`).  Pixel quantities (`f32` in the source) are modelled as `ℚ`;
every computation relevant here is exact.  Hash maps are modelled as
association lists (attributes) or as finitely-supported functions (property
maps); a source `panic!` is modelled as `none`.
A few small helpers that the source calls but whose definitions are not part
of the source tree (`Value::to_px`, `StyledNode::{value, lookup, display}`,
`Display`, `ElementData::{id, classes}`) are modelled from the spec; each such
definition says so in its doc comment.
-/

namespace node

/-- `AttrMap = HashMap<String, String>` (unique keys), modelled as an
association list; lookup takes the first binding. -/
abbrev AttrMap := List (String × String)

/-- First value bound to `k` in the attribute map, if any. -/
def findAttr (attrs : AttrMap) (k : String) : Option String :=
  (attrs.find? (fun kv => kv.1 == k)).map (fun kv => kv.2)

/-- `ElementData`: tag name and attributes (`node.rs`). -/
structure ElementData where
  tag_name : String
  attributes : AttrMap

/-- Modelled from the spec: `ElementData::id` is missing from src/ (only its
caller `matches_simple_selector` is present); per §4.1 it reads the element's
`id` attribute. -/
def ElementData.id (e : ElementData) : Option String :=
  findAttr e.attributes "id"

/-- Modelled from the spec: `ElementData::classes` is missing from src/; per
§4.1 the element's `class` attribute is whitespace-separated into class
names (no `class` attribute means no classes). -/
def ElementData.classes (e : ElementData) : List String :=
  match findAttr e.attributes "class" with
  | some s => s.split Char.isWhitespace
  | none => []

end node

namespace css

/-- CSS units (`css.rs`); only pixels exist. -/
inductive Unit where
  | Px
deriving DecidableEq, Repr

/-- CSS values (`css.rs`); `f32` lengths are modelled as `ℚ`, color channels
(`u8`) as `Nat`. -/
inductive Value where
  | Keyword (s : String)
  | Length (n : ℚ) (u : Unit)
  | Color (r g b a : Nat)
deriving DecidableEq, Repr

/-- Modelled from the spec: `Value::to_px` is missing from src/ (only its
callers in `boxes.rs` are present).  §4.4 sums the "pixel values" of the
looked-up values: a pixel `Length` contributes its number, every other value
(keywords such as `auto`, colors) contributes zero. -/
def Value.to_px : Value → ℚ
  | .Length f _ => f
  | _ => 0

/-- A CSS declaration `name: value` (`css.rs`). -/
structure Declaration where
  name : String
  value : Value
deriving DecidableEq, Repr

/-- A simple selector (`css.rs`).  The source field `class` is a reserved word
here, so it is called `class_names`. -/
structure SimpleSelector where
  tag_name : Option String
  id : Option String
  class_names : List String
deriving DecidableEq, Repr

/-- Selectors (`css.rs`); only the simple form exists. -/
inductive Selector where
  | Simple (s : SimpleSelector)
deriving DecidableEq, Repr

/-- `Specificity = (usize, usize, usize)`, compared lexicographically. -/
abbrev Specificity := Nat × Nat × Nat

/-- `Selector::specificity`: `(id count, class count, tag count)`;
`Option::iter().count()` is `Option.toList.length`. -/
def Selector.specificity : Selector → Specificity
  | .Simple simple =>
    (simple.id.toList.length, simple.class_names.length, simple.tag_name.toList.length)

/-- A CSS rule: selectors and declarations (`css.rs`). -/
structure Rule where
  selectors : List Selector
  declarations : List Declaration

/-- A stylesheet: an ordered sequence of rules (`css.rs`). -/
structure Stylesheet where
  rules : List Rule

/-- `matches_simple_selector` (`css.rs` lines 81–96): the three early-return
checks on tag name, id and class names. -/
def matches_simple_selector (elem : node.ElementData) (selector : SimpleSelector) : Bool :=
  if selector.tag_name.any (fun name => elem.tag_name != name) then false
  else if selector.id.any (fun i => elem.id != some i) then false
  else if selector.class_names.any (fun c => !(elem.classes.contains c)) then false
  else true

/-- `matches` (`css.rs`): dispatch on the selector form. -/
def selectorMatches (elem : node.ElementData) (selector : Selector) : Bool :=
  match selector with
  | .Simple simple_selector => matches_simple_selector elem simple_selector

/-- `MatchedRule<'a> = (Specificity, &'a Rule)`. -/
abbrev MatchedRule := Specificity × Rule

/-- `match_rule` (`css.rs`): the first selector of the rule that matches,
paired with its specificity, plus the rule. -/
def match_rule (elem : node.ElementData) (rule : Rule) : Option MatchedRule :=
  (rule.selectors.find? (fun selector => selectorMatches elem selector)).map
    (fun selector => (selector.specificity, rule))

/-- `matching_rules` (`css.rs`): rules with a matching selector, in
stylesheet order. -/
def matching_rules (elem : node.ElementData) (stylesheet : Stylesheet) : List MatchedRule :=
  stylesheet.rules.filterMap (fun rule => match_rule elem rule)

/-- Lexicographic order on specificities: the comparison performed by the
derived `Ord` on the Rust tuple, as used by `rules.sort_by`. -/
def specLe (a b : Specificity) : Bool :=
  a.1 < b.1 ∨ (a.1 = b.1 ∧ (a.2.1 < b.2.1 ∨ (a.2.1 = b.2.1 ∧ a.2.2 ≤ b.2.2)))

end css

namespace style

/-- `PropertyMap = HashMap<String, Value>` (unique keys, later insertion
overwrites), modelled as a finitely-supported function. -/
abbrev PropertyMap := String → Option css.Value

/-- The empty property map (`HashMap::new()`). -/
def emptyProps : PropertyMap := fun _ => none

/-- `values.insert(name, value)`: later insertions overwrite earlier ones. -/
def insertProp (m : PropertyMap) (k : String) (v : css.Value) : PropertyMap :=
  fun q => if q = k then some v else m q

/-- A styled node (`style.rs`): its property map and styled children.  The
non-owning reference to the document node carries no information used by the
functions verified here and is omitted. -/
inductive StyledNode where
  | mk (specified_values : PropertyMap) (children : List StyledNode)

def StyledNode.specified_values : StyledNode → PropertyMap
  | .mk pm _ => pm

def StyledNode.children : StyledNode → List StyledNode
  | .mk _ cs => cs

/-- Modelled from the spec: `StyledNode::value` is missing from src/ (only its
callers in `boxes.rs` are present); it reads the node's property map. -/
def StyledNode.value (s : StyledNode) (name : String) : Option css.Value :=
  s.specified_values name

/-- Modelled from the spec: `StyledNode::lookup` is missing from src/; §4.4
describes the longhand-then-shorthand-then-default lookup chain. -/
def StyledNode.lookup (s : StyledNode) (name fallback_name : String) (default : css.Value) :
    css.Value :=
  ((s.value name).or (s.value fallback_name)).getD default

/-- The three display modes. -/
inductive Display where
  | Block
  | Inline
  | None
deriving DecidableEq, Repr

/-- Modelled from the spec (§4.2): `StyledNode::display` is missing from src/;
`None` only for the keyword `none`, `Inline` only for the keyword `inline`,
`Block` in every other case including absence of the property. -/
def StyledNode.display (s : StyledNode) : Display :=
  match s.value "display" with
  | some (css.Value.Keyword kw) =>
    if kw = "none" then Display.None
    else if kw = "inline" then Display.Inline
    else Display.Block
  | _ => Display.Block

/-- One step of a stable ascending insertion by specificity: `x` goes after
every element whose specificity is `≤` its own. -/
def insertBySpecificity (x : css.MatchedRule) : List css.MatchedRule → List css.MatchedRule
  | [] => [x]
  | y :: ys => if css.specLe y.1 x.1 then y :: insertBySpecificity x ys else x :: y :: ys

/-- `rules.sort_by(|&(a, _), &(b, _)| a.cmp(&b))`: Rust's `sort_by` is a
stable ascending sort by the comparator, here modelled as a stable insertion
sort keyed on specificity alone. -/
def sortBySpecificity (l : List css.MatchedRule) : List css.MatchedRule :=
  l.foldl (fun acc x => insertBySpecificity x acc) []

/-- `specified_values` (`style.rs` lines 14–25): sort the matching rules by
ascending specificity (stably), then fold every rule's declarations into the
property map, later insertions overwriting earlier ones. -/
def specified_values (elem : node.ElementData) (stylesheet : css.Stylesheet) : PropertyMap :=
  let rules := sortBySpecificity (css.matching_rules elem stylesheet)
  rules.foldl
    (fun values mr =>
      mr.2.declarations.foldl (fun values d => insertProp values d.name d.value) values)
    emptyProps

end style

namespace boxes

/-- `Rect` (`boxes.rs`), pixel coordinates as `ℚ`. -/
structure Rect where
  x : ℚ
  y : ℚ
  width : ℚ
  height : ℚ
deriving DecidableEq, Repr

/-- `EdgeSizes` (`boxes.rs`). -/
structure EdgeSizes where
  left : ℚ
  right : ℚ
  top : ℚ
  bottom : ℚ
deriving DecidableEq, Repr

/-- `Dimensions` (`boxes.rs`): content rectangle plus the three edge sets. -/
structure Dimensions where
  content : Rect
  padding : EdgeSizes
  border : EdgeSizes
  margin : EdgeSizes
deriving DecidableEq, Repr

/-- `Rect::default()`: all zero. -/
def Rect.default : Rect := { x := 0, y := 0, width := 0, height := 0 }

/-- `EdgeSizes::default()`: all zero. -/
def EdgeSizes.default : EdgeSizes := { left := 0, right := 0, top := 0, bottom := 0 }

/-- `Dimensions::default()`: all zero. -/
def Dimensions.default : Dimensions :=
  { content := Rect.default, padding := EdgeSizes.default,
    border := EdgeSizes.default, margin := EdgeSizes.default }

/-- `Rect::expanded_by` (`boxes.rs` lines 35–42). -/
def Rect.expanded_by (self : Rect) (edge : EdgeSizes) : Rect :=
  { x := self.x - edge.left, y := self.y - edge.top,
    width := self.width + edge.left + edge.right,
    height := self.height + edge.top + edge.bottom }

/-- `Dimensions::padding_box`. -/
def Dimensions.padding_box (self : Dimensions) : Rect :=
  self.content.expanded_by self.padding

/-- `Dimensions::border_box`. -/
def Dimensions.border_box (self : Dimensions) : Rect :=
  self.padding_box.expanded_by self.border

/-- `Dimensions::margin_box`. -/
def Dimensions.margin_box (self : Dimensions) : Rect :=
  self.border_box.expanded_by self.margin

/-- `BoxType` (`boxes.rs`): block and inline boxes carry their styled node,
anonymous blocks carry none. -/
inductive BoxType where
  | BlockNode (node : style.StyledNode)
  | InlineNode (node : style.StyledNode)
  | AnonymousBlock

/-- `LayoutBox` (`boxes.rs`): dimensions, box type, children. -/
inductive LayoutBox where
  | mk (dimensions : Dimensions) (box_type : BoxType) (children : List LayoutBox)

def LayoutBox.dimensions : LayoutBox → Dimensions
  | .mk d _ _ => d

def LayoutBox.box_type : LayoutBox → BoxType
  | .mk _ bt _ => bt

def LayoutBox.children : LayoutBox → List LayoutBox
  | .mk _ _ cs => cs

/-- `LayoutBox::new`: default dimensions, no children. -/
def LayoutBox.new (box_type : BoxType) : LayoutBox :=
  .mk Dimensions.default box_type []

/-- `get_style_node` (`boxes.rs` lines 74–80); the `AnonymousBlock` arm panics
in the source ("Anonymous block doesn't have a node") and is modelled as
`none`. -/
def LayoutBox.get_style_node : LayoutBox → Option style.StyledNode
  | .mk _ (BoxType.BlockNode node) _ => some node
  | .mk _ (BoxType.InlineNode node) _ => some node
  | .mk _ BoxType.AnonymousBlock _ => none

/-- Whether a box type is `AnonymousBlock` (the test made by
`get_inline_container` on the last child). -/
def BoxType.isAnonymous : BoxType → Bool
  | BoxType.AnonymousBlock => true
  | _ => false

/-- Append `b` to the children of the last box of the list.  Helper for the
`children.last_mut().unwrap().children.push(b)` effect of pushing into the
inline container; every call site passes a non-empty list. -/
def pushIntoLast : List LayoutBox → LayoutBox → List LayoutBox
  | [], _ => []
  | [c], b => [LayoutBox.mk c.dimensions c.box_type (c.children ++ [b])]
  | c :: cs, b => c :: pushIntoLast cs b

/-- `self.get_inline_container().children.push(b)` (`boxes.rs` lines 197–208):
for an `InlineNode` or `AnonymousBlock` box the container is the box itself;
for a `BlockNode` box it is the last child when that child is already an
`AnonymousBlock`, otherwise a freshly appended empty `AnonymousBlock`. -/
def LayoutBox.push_inline_child (self : LayoutBox) (b : LayoutBox) : LayoutBox :=
  match self.box_type with
  | BoxType.InlineNode _ | BoxType.AnonymousBlock =>
    LayoutBox.mk self.dimensions self.box_type (self.children ++ [b])
  | BoxType.BlockNode _ =>
    let children :=
      match self.children.getLast? with
      | some last =>
        if last.box_type.isAnonymous then self.children
        else self.children ++ [LayoutBox.new BoxType.AnonymousBlock]
      | none => self.children ++ [LayoutBox.new BoxType.AnonymousBlock]
    LayoutBox.mk self.dimensions self.box_type (pushIntoLast children b)

mutual

/-- `build_layout_tree` (`boxes.rs` lines 211–226); the `Display::None` root
arm panics in the source ("Root node has display: none.") and is modelled as
`none`. -/
def build_layout_tree : style.StyledNode → Option LayoutBox
  | .mk pm children =>
    match style.StyledNode.display (.mk pm children) with
    | style.Display.None => none
    | d =>
      some (build_children children
        (LayoutBox.new
          (match d with
           | style.Display.Inline => BoxType.InlineNode (.mk pm children)
           | _ => BoxType.BlockNode (.mk pm children))))

/-- The child loop of `build_layout_tree`: a `Display.Block` child is appended
directly, a `Display.Inline` child goes through the inline container, a
`Display.None` child is skipped without recursing into it.  The recursive
call returns `none` exactly on a `Display.None` child, so the `none` fall
-throughs below are never taken for `Block`/`Inline` children. -/
def build_children : List style.StyledNode → LayoutBox → LayoutBox
  | [], root => root
  | child :: rest, root =>
    match child.display with
    | style.Display.Block =>
      build_children rest
        (match build_layout_tree child with
         | some b => LayoutBox.mk root.dimensions root.box_type (root.children ++ [b])
         | none => root)
    | style.Display.Inline =>
      build_children rest
        (match build_layout_tree child with
         | some b => root.push_inline_child b
         | none => root)
    | style.Display.None => build_children rest root

end

/-- `calculate_block_width` (`boxes.rs` lines 97–160).  The source method
mutates `self.dimensions`; the style node (read by `self.get_style_node()` —
hoisted to the caller `layout`) and the current dimensions are passed
explicitly and the updated dimensions returned. -/
def calculate_block_width (style_node : style.StyledNode) (d0 : Dimensions)
    (containing_block : Dimensions) : Dimensions :=
  let auto := css.Value.Keyword "auto"
  let width := (style_node.value "width").getD auto
  let zero := css.Value.Length 0 css.Unit.Px
  let margin_left := style_node.lookup "margin-left" "margin" zero
  let margin_right := style_node.lookup "margin-right" "margin" zero
  let border_left := style_node.lookup "border-left-width" "border-width" zero
  let border_right := style_node.lookup "border-right-width" "border-width" zero
  let padding_left := style_node.lookup "padding-left" "padding" zero
  let padding_right := style_node.lookup "padding-right" "padding" zero
  -- source line 112: `total` sums the pixel values of the two margins, two
  -- borders and two paddings; the resolved `width` itself is not summed.
  let total := margin_left.to_px + margin_right.to_px + border_left.to_px +
    border_right.to_px + padding_left.to_px + padding_right.to_px
  -- over-constraint fixup: force auto margins to zero
  let margin_left :=
    if width ≠ auto ∧ total > containing_block.content.width ∧ margin_left = auto then zero
    else margin_left
  let margin_right :=
    if width ≠ auto ∧ total > containing_block.content.width ∧ margin_right = auto then zero
    else margin_right
  let underflow := containing_block.content.width - total
  -- match (width == auto, margin_left == auto, margin_right == auto)
  let resolved :=
    if width = auto then
      let margin_left := if margin_left = auto then css.Value.Length 0 css.Unit.Px else margin_left
      let margin_right :=
        if margin_right = auto then css.Value.Length 0 css.Unit.Px else margin_right
      if underflow ≥ 0 then
        (css.Value.Length underflow css.Unit.Px, margin_left, margin_right)
      else
        (css.Value.Length 0 css.Unit.Px, margin_left,
         css.Value.Length (margin_right.to_px + underflow) css.Unit.Px)
    else if margin_left = auto then
      if margin_right = auto then
        (width, css.Value.Length (underflow / 2) css.Unit.Px,
         css.Value.Length (underflow / 2) css.Unit.Px)
      else
        (width, css.Value.Length underflow css.Unit.Px, margin_right)
    else
      if margin_right = auto then
        (width, margin_left, css.Value.Length underflow css.Unit.Px)
      else
        (width, margin_left, css.Value.Length (margin_right.to_px + underflow) css.Unit.Px)
  { d0 with
    content := { d0.content with width := resolved.1.to_px },
    padding := { d0.padding with left := padding_left.to_px, right := padding_right.to_px },
    margin := { d0.margin with left := resolved.2.1.to_px, right := resolved.2.2.to_px },
    border := { d0.border with left := border_left.to_px, right := border_right.to_px } }

/-- `calculate_block_position` (`boxes.rs` lines 162–181). -/
def calculate_block_position (style_node : style.StyledNode) (d0 : Dimensions)
    (containing_block : Dimensions) : Dimensions :=
  let zero := css.Value.Length 0 css.Unit.Px
  let margin :=
    { d0.margin with
      top := (style_node.lookup "margin-top" "margin" zero).to_px,
      bottom := (style_node.lookup "margin-bottom" "margin" zero).to_px }
  let border :=
    { d0.border with
      top := (style_node.lookup "border-top-width" "border-width" zero).to_px,
      bottom := (style_node.lookup "border-bottom-width" "border-width" zero).to_px }
  let padding :=
    { d0.padding with
      top := (style_node.lookup "padding-top" "padding" zero).to_px,
      bottom := (style_node.lookup "padding-bottom" "padding" zero).to_px }
  { d0 with
    content :=
      { d0.content with
        x := containing_block.content.x + margin.left + border.left + padding.left,
        y := containing_block.content.height + containing_block.content.y +
          margin.top + border.top + padding.top },
    margin := margin, border := border, padding := padding }

/-- `calculate_block_height` (`boxes.rs` lines 183–187): an explicit pixel
`height` overwrites the accumulated content height. -/
def calculate_block_height (style_node : style.StyledNode) (d0 : Dimensions) : Dimensions :=
  match style_node.value "height" with
  | some (css.Value.Length h css.Unit.Px) =>
    { d0 with content := { d0.content with height := h } }
  | _ => d0

mutual

/-- `layout` (`boxes.rs` lines 82–95): a `BlockNode` runs `layout_block`
(width, position, children, height — each step reading the style node, whose
`get_style_node` panic on an anonymous box is modelled as `none`); `InlineNode`
and `AnonymousBlock` boxes are no-ops. -/
def layout : LayoutBox → Dimensions → Option LayoutBox
  | .mk dims bt children, containing_block =>
    match bt with
    | BoxType.BlockNode _ =>
      match LayoutBox.get_style_node (.mk dims bt children) with
      | none => none
      | some style_node =>
        let d := calculate_block_width style_node dims containing_block
        let d := calculate_block_position style_node d containing_block
        match layout_children children d with
        | none => none
        | some (children', d') =>
          some (LayoutBox.mk (calculate_block_height style_node d') bt children')
    | BoxType.InlineNode _ => some (.mk dims bt children)
    | BoxType.AnonymousBlock => some (.mk dims bt children)

/-- `layout_block_children` (`boxes.rs` lines 189–195): each child is laid out
against the parent's current dimensions, whose content height then immediately
grows by the child's margin-box height. -/
def layout_children : List LayoutBox → Dimensions → Option (List LayoutBox × Dimensions)
  | [], d => some ([], d)
  | child :: rest, d =>
    match layout child d with
    | none => none
    | some child' =>
      let d :=
        { d with
          content :=
            { d.content with
              height := d.content.height + child'.dimensions.margin_box.height } }
      match layout_children rest d with
      | none => none
      | some (rest', d') => some (child' :: rest', d')

end

end boxes

namespace boxes

/-- The three kinds of box, forgetting the attached style nodes; used to state
shape properties of built layout trees. -/
inductive Kind where
  | block
  | inline
  | anon
deriving DecidableEq, Repr

/-- The kind of a layout box. -/
def kindOf (b : LayoutBox) : Kind :=
  match b.box_type with
  | BoxType.BlockNode _ => Kind.block
  | BoxType.InlineNode _ => Kind.inline
  | BoxType.AnonymousBlock => Kind.anon

/-- Two-level shape of a box: for each child, its kind and its children's
kinds. -/
def summary2 (b : LayoutBox) : List (Kind × List Kind) :=
  b.children.map (fun c => (kindOf c, c.children.map kindOf))

mutual

/-- The invariant exactly as the claim states it: no box anywhere in the tree
has both a `BlockNode` child and an `InlineNode` child. -/
def mixFree : LayoutBox → Bool
  | .mk _ _ children =>
    !((children.any (fun c => kindOf c == Kind.block)) &&
      (children.any (fun c => kindOf c == Kind.inline)))
    && allMixFree children

def allMixFree : List LayoutBox → Bool
  | [] => true
  | c :: cs => mixFree c && allMixFree cs

end

mutual

/-- The amended invariant: no `BlockNode` parent and no `AnonymousBlock`
parent has both a `BlockNode` child and an `InlineNode` child; an
`InlineNode` parent is exempt. -/
def wellWrapped : LayoutBox → Bool
  | .mk _ bt children =>
    (match bt with
     | BoxType.InlineNode _ => true
     | _ =>
       !((children.any (fun c => kindOf c == Kind.block)) &&
         (children.any (fun c => kindOf c == Kind.inline))))
    && allWellWrapped children

def allWellWrapped : List LayoutBox → Bool
  | [] => true
  | c :: cs => wellWrapped c && allWellWrapped cs

end

/-- The shape of one node in a built tree: a `BlockNode` parent has no
`InlineNode` child, an `AnonymousBlock` parent has only `InlineNode`
children, an `InlineNode` parent is unconstrained. -/
def nodeShapeOK (b : LayoutBox) : Bool :=
  match b.box_type with
  | BoxType.BlockNode _ => b.children.all (fun c => kindOf c != Kind.inline)
  | BoxType.AnonymousBlock => b.children.all (fun c => kindOf c == Kind.inline)
  | BoxType.InlineNode _ => true

mutual

/-- `nodeShapeOK` at every node of the tree. -/
def strongGood : LayoutBox → Bool
  | .mk d bt children => nodeShapeOK (.mk d bt children) && allStrongGood children

def allStrongGood : List LayoutBox → Bool
  | [] => true
  | c :: cs => strongGood c && allStrongGood cs

end

end boxes

/-- Whether a rule declares the property `p`. -/
def declares (p : String) (r : css.Rule) : Bool :=
  r.declarations.any (fun d => d.name = p)

/-- The value the last declaration of `p` in a declaration list assigns, if
any (a rule declaring `p` twice contributes its later declaration, matching
map insertion order). -/
def lastDeclValue (p : String) (ds : List css.Declaration) : Option css.Value :=
  ds.foldl (fun acc d => if d.name = p then some d.value else acc) none

/-- One step of the cascade policy the claim describes: scanning matching
rules in stylesheet order, a rule declaring `p` replaces the current winner
exactly when its specificity is at least the winner's.  Hence the
highest-specificity rule declaring `p` wins, and among rules of equal
specificity the later one (in stylesheet order) wins. -/
def winStep (p : String) (acc : Option css.MatchedRule) (mr : css.MatchedRule) :
    Option css.MatchedRule :=
  if declares p mr.2 then
    match acc with
    | none => some mr
    | some w => if css.specLe w.1 mr.1 then some mr else some w
  else acc

/-- The winning matched rule for property `p`, per the claim's cascade
policy (stated from the spec's words, to be compared with the
implementation's sort-then-fold). -/
def cascadeWinner (p : String) (l : List css.MatchedRule) : Option css.MatchedRule :=
  l.foldl (winStep p) none

/-- The last element of the list whose rule declares `p` (proof-side view of
"later insertions overwrite earlier ones"). -/
def lastMatching (p : String) (l : List css.MatchedRule) : Option css.MatchedRule :=
  l.foldl (fun acc mr => if declares p mr.2 then some mr else acc) none

/-- The value for `p` contributed by the last rule in the list declaring it. -/
def lastRuleValue (p : String) (l : List css.MatchedRule) : Option css.Value :=
  l.foldl (fun acc mr => (lastDeclValue p mr.2.declarations).or acc) none

section ConcreteInputs

open boxes

/-- Property map `{display: inline}`. -/
def inlineProps : style.PropertyMap := fun p =>
  if p = "display" then some (css.Value.Keyword "inline") else none

/-- Property map `{display: block}`. -/
def blockProps : style.PropertyMap := fun p =>
  if p = "display" then some (css.Value.Keyword "block") else none

/-- Property map `{display: none}`. -/
def noneProps : style.PropertyMap := fun p =>
  if p = "display" then some (css.Value.Keyword "none") else none

/-- C1: `{width: 300px, margin-left: auto, margin-right: auto}`. -/
def c1props : style.PropertyMap := fun p =>
  if p = "width" then some (css.Value.Length 300 css.Unit.Px)
  else if p = "margin-left" then some (css.Value.Keyword "auto")
  else if p = "margin-right" then some (css.Value.Keyword "auto")
  else none

/-- C1: the styled node of the box under width resolution. -/
def c1style : style.StyledNode := .mk c1props []

/-- C1: a containing block whose content width is 800. -/
def c1cb : Dimensions :=
  { Dimensions.default with content := { Rect.default with width := 800 } }

/-- C2: an inline-display styled node with a block-display child followed by
an inline-display child. -/
def c2root : style.StyledNode := .mk inlineProps [.mk style.emptyProps [], .mk inlineProps []]

/-- C2 witness input: a block-display node with one inline child. -/
def c2wS : style.StyledNode := .mk blockProps [.mk inlineProps []]

/-- C2 witness: the box built from `c2wS`. -/
def c2wB : LayoutBox := (build_layout_tree c2wS).getD (LayoutBox.new BoxType.AnonymousBlock)

/-- C4 witness: a containing block whose content width is 800. -/
def c4cb : Dimensions :=
  { Dimensions.default with content := { Rect.default with width := 800 } }

/-- C4 witness: a styled node with no properties at all (width resolves to
auto). -/
def c4style : style.StyledNode := .mk style.emptyProps []

/-- C5: property map `{height: 50px}`. -/
def h50Props : style.PropertyMap := fun p =>
  if p = "height" then some (css.Value.Length 50 css.Unit.Px) else none

/-- C5: property map `{height: 30px}`. -/
def h30Props : style.PropertyMap := fun p =>
  if p = "height" then some (css.Value.Length 30 css.Unit.Px) else none

/-- C5: a block box with two block children of explicit heights 50 and 30
and no other properties. -/
def c5parent : LayoutBox :=
  LayoutBox.mk Dimensions.default (BoxType.BlockNode (.mk style.emptyProps []))
    [LayoutBox.new (BoxType.BlockNode (.mk h50Props [])),
     LayoutBox.new (BoxType.BlockNode (.mk h30Props []))]

/-- C6: a block-display parent whose children have displays
`[inline, inline, block, inline]`. -/
def c6parent : style.StyledNode :=
  .mk blockProps [.mk inlineProps [], .mk inlineProps [], .mk blockProps [], .mk inlineProps []]

/-- C7 witness: a styled node whose display resolves to `None`. -/
def c7noneS : style.StyledNode := .mk noneProps []

/-- C7 witness: a styled node whose display resolves to `Block` but whose
only child has display `none`. -/
def c7blockS : style.StyledNode := .mk style.emptyProps [.mk noneProps []]

/-- C9 witness: a block-display styled node with one inline child. -/
def c9root : style.StyledNode := .mk style.emptyProps [.mk inlineProps []]

/-- C9 witness: the box built from `c9root`. -/
def c9box : LayoutBox := (build_layout_tree c9root).getD (LayoutBox.new BoxType.AnonymousBlock)

/-- C10 witness: `{width: 300px, padding-left: 600px}` (over-constrained
against a 100-wide containing block). -/
def c10props : style.PropertyMap := fun p =>
  if p = "width" then some (css.Value.Length 300 css.Unit.Px)
  else if p = "padding-left" then some (css.Value.Length 600 css.Unit.Px)
  else none

/-- C10 witness: the styled node carrying `c10props`. -/
def c10style : style.StyledNode := .mk c10props []

/-- C10 witness: a containing block whose content width is 100, so that the
box is over-constrained. -/
def c10cb : Dimensions :=
  { Dimensions.default with content := { Rect.default with width := 100 } }

end ConcreteInputs

/-- The zero pixel length used as lookup default throughout `boxes.rs`. -/
def zeroLen : css.Value := css.Value.Length 0 css.Unit.Px

/-- The width value a block box resolves: the `width` property, defaulting to
the keyword `auto`. -/
def resolvedWidth (s : style.StyledNode) : css.Value :=
  (s.value "width").getD (css.Value.Keyword "auto")

/-- A margin value with the keyword `auto` replaced by zero ("first sets any
auto margin to zero"); non-lengths already contribute zero pixels. -/
def autoZeroed (v : css.Value) : ℚ :=
  if v = css.Value.Keyword "auto" then 0 else v.to_px

/-- The pixel sum of the two margins, two borders and two paddings of a box —
the quantity the containing width is reduced by to give the underflow. -/
def edgeSum (s : style.StyledNode) : ℚ :=
  (s.lookup "margin-left" "margin" zeroLen).to_px +
  (s.lookup "margin-right" "margin" zeroLen).to_px +
  (s.lookup "border-left-width" "border-width" zeroLen).to_px +
  (s.lookup "border-right-width" "border-width" zeroLen).to_px +
  (s.lookup "padding-left" "padding" zeroLen).to_px +
  (s.lookup "padding-right" "padding" zeroLen).to_px

/-- `specLe` unfolded to its lexicographic meaning. -/
theorem specLe_iff (a b : css.Specificity) :
    css.specLe a b = true ↔
      a.1 < b.1 ∨ (a.1 = b.1 ∧ (a.2.1 < b.2.1 ∨ (a.2.1 = b.2.1 ∧ a.2.2 ≤ b.2.2))) := by
  simp [css.specLe]

/-- `specLe` is total. -/
theorem specLe_total (a b : css.Specificity) :
    css.specLe a b = true ∨ css.specLe b a = true := by
  obtain ⟨a1, a2, a3⟩ := a
  obtain ⟨b1, b2, b3⟩ := b
  simp only [specLe_iff]
  omega

/-- `specLe` is transitive. -/
theorem specLe_trans {a b c : css.Specificity} (hab : css.specLe a b = true)
    (hbc : css.specLe b c = true) : css.specLe a c = true := by
  obtain ⟨a1, a2, a3⟩ := a
  obtain ⟨b1, b2, b3⟩ := b
  obtain ⟨c1, c2, c3⟩ := c
  simp only [specLe_iff] at *
  omega

/-- The fold computing `lastDeclValue` from an arbitrary accumulator. -/
theorem lastDeclValue_init (p : String) :
    ∀ (ds : List css.Declaration) (a : Option css.Value),
      ds.foldl (fun acc d => if d.name = p then some d.value else acc) a =
        (lastDeclValue p ds).or a
  | [], a => by simp [lastDeclValue]
  | d :: ds, a => by
    simp only [lastDeclValue, List.foldl_cons]
    rw [lastDeclValue_init p ds, lastDeclValue_init p ds (if d.name = p then some d.value else none)]
    rw [Option.or_assoc]
    by_cases h : d.name = p <;> simp [h]

/-- A rule declares `p` iff its last declaration of `p` exists. -/
theorem declares_eq_isSome (p : String) (r : css.Rule) :
    declares p r = (lastDeclValue p r.declarations).isSome := by
  unfold declares
  induction r.declarations using List.reverseRecOn with
  | nil => simp [lastDeclValue]
  | append_singleton ds d ih =>
    simp only [lastDeclValue, List.foldl_append, List.foldl_cons, List.foldl_nil] at *
    rw [lastDeclValue_init p ds]
    by_cases h : d.name = p <;> simp [h, ih, lastDeclValue]

/-- Folding a declaration list into a property map, read back at `p`: the
last declaration of `p` wins, otherwise the map is unchanged at `p`. -/
theorem foldl_insertProp_decls (p : String) :
    ∀ (ds : List css.Declaration) (m : style.PropertyMap),
      (ds.foldl (fun vs d => style.insertProp vs d.name d.value) m) p =
        (lastDeclValue p ds).or (m p)
  | [], m => by simp [lastDeclValue]
  | d :: ds, m => by
    simp only [List.foldl_cons]
    rw [foldl_insertProp_decls p ds]
    have hdecl : lastDeclValue p (d :: ds) =
        (lastDeclValue p ds).or (if d.name = p then some d.value else none) := by
      simp only [lastDeclValue, List.foldl_cons]
      exact lastDeclValue_init p ds (if d.name = p then some d.value else none)
    rw [hdecl, Option.or_assoc]
    by_cases h : d.name = p
    · subst h
      simp [style.insertProp, Option.or]
    · have h' : ¬ p = d.name := fun hh => h hh.symm
      simp [style.insertProp, h, h', Option.or]

/-- The fold computing `lastRuleValue` from an arbitrary accumulator. -/
theorem lastRuleValue_init (p : String) :
    ∀ (l : List css.MatchedRule) (a : Option css.Value),
      l.foldl (fun acc mr => (lastDeclValue p mr.2.declarations).or acc) a =
        (lastRuleValue p l).or a
  | [], a => by simp [lastRuleValue]
  | mr :: l, a => by
    simp only [lastRuleValue, List.foldl_cons]
    rw [lastRuleValue_init p l, lastRuleValue_init p l ((lastDeclValue p mr.2.declarations).or none)]
    rw [Option.or_assoc, Option.or_assoc, Option.none_or]

/-- Folding matched rules into a property map, read back at `p`: the value of
the last rule declaring `p`, otherwise the map unchanged. -/
theorem foldl_insertProp_rules (p : String) :
    ∀ (l : List css.MatchedRule) (m : style.PropertyMap),
      (l.foldl
        (fun values mr =>
          mr.2.declarations.foldl (fun values d => style.insertProp values d.name d.value) values)
        m) p = (lastRuleValue p l).or (m p)
  | [], m => by simp [lastRuleValue]
  | mr :: l, m => by
    simp only [List.foldl_cons]
    rw [foldl_insertProp_rules p l]
    have hrule : lastRuleValue p (mr :: l) =
        (lastRuleValue p l).or (lastDeclValue p mr.2.declarations) := by
      simp only [lastRuleValue, List.foldl_cons]
      rw [lastRuleValue_init p l ((lastDeclValue p mr.2.declarations).or none), Option.or_none]
      rfl
    rw [hrule, Option.or_assoc, foldl_insertProp_decls p]

/-- The fold computing `lastMatching` from an arbitrary accumulator. -/
theorem lastMatching_init (p : String) :
    ∀ (l : List css.MatchedRule) (a : Option css.MatchedRule),
      l.foldl (fun acc mr => if declares p mr.2 then some mr else acc) a =
        (lastMatching p l).or a
  | [], a => by simp [lastMatching]
  | mr :: l, a => by
    simp only [lastMatching, List.foldl_cons]
    rw [lastMatching_init p l, lastMatching_init p l (if declares p mr.2 then some mr else none)]
    rw [Option.or_assoc]
    by_cases h : declares p mr.2 <;> simp [h]

/-- `lastRuleValue` is the last declared value of the last rule declaring the
property. -/
theorem lastRuleValue_eq_bind (p : String) :
    ∀ l : List css.MatchedRule,
      lastRuleValue p l =
        (lastMatching p l).bind (fun mr => lastDeclValue p mr.2.declarations) := by
  intro l
  induction l using List.reverseRecOn with
  | nil => simp [lastRuleValue, lastMatching]
  | append_singleton l mr ih =>
    simp only [lastRuleValue, lastMatching, List.foldl_append, List.foldl_cons, List.foldl_nil]
    by_cases h : declares p mr.2 = true
    · have hs : (lastDeclValue p mr.2.declarations).isSome = true := by
        rw [← declares_eq_isSome, h]
      obtain ⟨v, hv⟩ := Option.isSome_iff_exists.mp hs
      simp [h, hv, Option.or]
    · have hb : declares p mr.2 = false := by simpa using h
      have hs : lastDeclValue p mr.2.declarations = none := by
        have h2 := declares_eq_isSome p mr.2
        rw [hb] at h2
        exact Option.not_isSome_iff_eq_none.mp (by simp [← h2])
      rw [hs, Option.none_or, hb]
      simpa using ih

/-- Membership in the insertion step. -/
theorem mem_insertBySpecificity (x z : css.MatchedRule) :
    ∀ l : List css.MatchedRule,
      z ∈ style.insertBySpecificity x l ↔ z = x ∨ z ∈ l
  | [] => by simp [style.insertBySpecificity]
  | y :: ys => by
    by_cases hle : css.specLe y.1 x.1 = true
    · simp only [style.insertBySpecificity, hle, if_true, List.mem_cons,
        mem_insertBySpecificity x z ys]
      tauto
    · have hb : css.specLe y.1 x.1 = false := by simpa using hle
      simp only [style.insertBySpecificity, hb]
      try simp only [Bool.false_eq_true, if_false, List.mem_cons]
      try tauto

/-- Sortedness (as `Pairwise`) is preserved by the insertion step. -/
theorem pairwise_insertBySpecificity (x : css.MatchedRule) :
    ∀ l : List css.MatchedRule,
      l.Pairwise (fun a b => css.specLe a.1 b.1 = true) →
        (style.insertBySpecificity x l).Pairwise (fun a b => css.specLe a.1 b.1 = true)
  | [], _ => by simp [style.insertBySpecificity]
  | y :: ys, h => by
    rw [List.pairwise_cons] at h
    by_cases hle : css.specLe y.1 x.1 = true
    · simp only [style.insertBySpecificity, hle, if_true, List.pairwise_cons]
      refine ⟨?_, pairwise_insertBySpecificity x ys h.2⟩
      intro z hz
      rcases (mem_insertBySpecificity x z ys).mp hz with hzx | hzys
      · exact hzx ▸ hle
      · exact h.1 z hzys
    · have hxy : css.specLe x.1 y.1 = true := by
        rcases specLe_total x.1 y.1 with h1 | h1
        · exact h1
        · exact absurd h1 hle
      have hb : css.specLe y.1 x.1 = false := by simpa using hle
      simp only [style.insertBySpecificity, hb, Bool.false_eq_true, if_false,
        List.pairwise_cons, List.mem_cons]
      refine ⟨?_, ?_, h.2⟩
      · rintro z (rfl | hz)
        · exact hxy
        · exact specLe_trans hxy (h.1 z hz)
      · exact h.1

/-- The last rule declaring `p` belongs to the list. -/
theorem lastMatching_mem (p : String) :
    ∀ (l : List css.MatchedRule) (w : css.MatchedRule),
      lastMatching p l = some w → w ∈ l
  | [], w => by simp [lastMatching]
  | mr :: l, w => by
    intro h
    have hcons : lastMatching p (mr :: l) =
        (lastMatching p l).or (if declares p mr.2 then some mr else none) := by
      simp only [lastMatching, List.foldl_cons]
      exact lastMatching_init p l (if declares p mr.2 then some mr else none)
    rw [hcons] at h
    cases hL : lastMatching p l with
    | some w' =>
      rw [hL] at h
      simp only [Option.or] at h
      cases h
      exact List.mem_cons_of_mem mr (lastMatching_mem p l w hL)
    | none =>
      rw [hL, Option.none_or] at h
      by_cases hd : declares p mr.2 = true
      · rw [hd] at h
        simp at h
        exact h ▸ List.mem_cons_self mr l
      · have hb : declares p mr.2 = false := by simpa using hd
        rw [hb] at h
        simp at h

/-- Inserting `x` into a sorted list moves the "last rule declaring `p`"
pointer exactly as one step of the claim's cascade policy. -/
theorem lastMatching_insertBySpecificity (p : String) (x : css.MatchedRule) :
    ∀ l : List css.MatchedRule,
      l.Pairwise (fun a b => css.specLe a.1 b.1 = true) →
        lastMatching p (style.insertBySpecificity x l) = winStep p (lastMatching p l) x
  | [], _ => by
    by_cases hd : declares p x.2 = true <;>
      simp [style.insertBySpecificity, lastMatching, winStep, hd]
  | y :: ys, h => by
    rw [List.pairwise_cons] at h
    have hconsY : ∀ t : List css.MatchedRule, lastMatching p (y :: t) =
        (lastMatching p t).or (if declares p y.2 then some y else none) := by
      intro t
      simp only [lastMatching, List.foldl_cons]
      exact lastMatching_init p t (if declares p y.2 then some y else none)
    by_cases hle : css.specLe y.1 x.1 = true
    · simp only [style.insertBySpecificity, hle, if_true]
      rw [hconsY (style.insertBySpecificity x ys), hconsY ys,
        lastMatching_insertBySpecificity p x ys h.2]
      by_cases hd : declares p x.2 = true
      · cases hL : lastMatching p ys with
        | some w =>
          by_cases hwx : css.specLe w.1 x.1 = true <;>
            simp [winStep, hd, hL, hwx, Option.or]
        | none =>
          by_cases hdy : declares p y.2 = true
          · simp [winStep, hd, hL, hdy, Option.or, hle]
          · have hby : declares p y.2 = false := by simpa using hdy
            simp [winStep, hd, hL, hby, Option.or]
      · have hb : declares p x.2 = false := by simpa using hd
        simp [winStep, hb]
    · have hble : css.specLe y.1 x.1 = false := by simpa using hle
      simp only [style.insertBySpecificity, hble, Bool.false_eq_true, if_false]
      have hconsX : lastMatching p (x :: y :: ys) =
          (lastMatching p (y :: ys)).or (if declares p x.2 then some x else none) := by
        simp only [lastMatching, List.foldl_cons]
        exact lastMatching_init p (y :: ys) (if declares p x.2 then some x else none)
      rw [hconsX]
      by_cases hd : declares p x.2 = true
      · cases hM : lastMatching p (y :: ys) with
        | none => simp [winStep, hd, hM, Option.or]
        | some w =>
          have hwmem : w ∈ y :: ys := lastMatching_mem p (y :: ys) w hM
          have hwx : css.specLe w.1 x.1 = false := by
            rcases List.mem_cons.mp hwmem with rfl | hwys
            · exact hble
            · by_contra hc
              have hc' : css.specLe w.1 x.1 = true := by
                revert hc
                cases css.specLe w.1 x.1 <;> simp
              exact absurd (specLe_trans (h.1 w hwys) hc') hle
          simp [winStep, hd, hM, hwx, Option.or]
      · have hb : declares p x.2 = false := by simpa using hd
        simp [winStep, hb, Option.or_none]

/-- The sorting fold and the cascade-policy fold advance in lockstep. -/
theorem sort_fold_winner (p : String) :
    ∀ (l acc : List css.MatchedRule),
      acc.Pairwise (fun a b => css.specLe a.1 b.1 = true) →
        lastMatching p (l.foldl (fun a x => style.insertBySpecificity x a) acc) =
          l.foldl (winStep p) (lastMatching p acc)
  | [], acc, _ => by simp
  | x :: l, acc, h => by
    simp only [List.foldl_cons]
    rw [sort_fold_winner p l (style.insertBySpecificity x acc)
      (pairwise_insertBySpecificity x acc h)]
    rw [lastMatching_insertBySpecificity p x acc h]

/-- On the sorted matching rules, the last rule declaring `p` is the
cascade winner. -/
theorem lastMatching_sort (p : String) (l : List css.MatchedRule) :
    lastMatching p (style.sortBySpecificity l) = cascadeWinner p l := by
  unfold style.sortBySpecificity cascadeWinner
  rw [sort_fold_winner p l [] (by simp)]
  rfl

/-- The cascade fold yields a winner exactly when some processed rule
declares the property. -/
theorem winStep_foldl_isSome (p : String) :
    ∀ (l : List css.MatchedRule) (a : Option css.MatchedRule),
      (l.foldl (winStep p) a).isSome = (a.isSome || l.any (fun mr => declares p mr.2))
  | [], a => by simp
  | mr :: l, a => by
    simp only [List.foldl_cons, List.any_cons]
    rw [winStep_foldl_isSome p l]
    have hstep : (winStep p a mr).isSome = (a.isSome || declares p mr.2) := by
      by_cases hd : declares p mr.2 = true
      · cases a with
        | none => simp [winStep, hd]
        | some w =>
          by_cases hle : css.specLe w.1 mr.1 = true <;> simp [winStep, hd, hle]
      · have hb : declares p mr.2 = false := by simpa using hd
        simp [winStep, hb]
    rw [hstep, Bool.or_assoc]

/-- `specified_values`, read at a property, agrees with the claim's cascade
policy: the winning rule's (last) declared value for the property, absent
when no matching rule declares it. -/
theorem specified_values_eq_cascade (elem : node.ElementData) (sheet : css.Stylesheet)
    (p : String) :
    style.specified_values elem sheet p =
      (cascadeWinner p (css.matching_rules elem sheet)).bind
        (fun mr => lastDeclValue p mr.2.declarations) := by
  have h := foldl_insertProp_rules p
    (style.sortBySpecificity (css.matching_rules elem sheet)) style.emptyProps
  simp only [style.specified_values]
  rw [h]
  simp only [style.emptyProps, Option.or_none]
  rw [lastRuleValue_eq_bind p, lastMatching_sort p]

/-- C3.  Cascade net effect: for every element, stylesheet and property name,
the map returned by `specified_values` holds, at that name, exactly the value
declared by the winning matching rule — the rule of highest specificity
declaring the property, later stylesheet order breaking ties (`cascadeWinner`,
stated from the spec's words); and a winner exists exactly when some matching
rule declares the property, so a property declared by no matching rule is
absent from the map. -/
theorem c3_cascade_net_effect (elem : node.ElementData) (sheet : css.Stylesheet) (p : String) :
    style.specified_values elem sheet p =
      (cascadeWinner p (css.matching_rules elem sheet)).bind
        (fun mr => lastDeclValue p mr.2.declarations) ∧
    ((cascadeWinner p (css.matching_rules elem sheet)).isSome =
      (css.matching_rules elem sheet).any (fun mr => declares p mr.2)) := by
  refine ⟨specified_values_eq_cascade elem sheet p, ?_⟩
  have h := winStep_foldl_isSome p (css.matching_rules elem sheet) none
  simpa [cascadeWinner] using h

/-- C8.  Selector matching: `matches_simple_selector` returns `true` iff the
selector's tag name is unset or equals the element's tag name, its id is
unset or equals the element's `id` attribute, and every class name of the
selector occurs among the element's classes. -/
theorem c8_matches_simple_selector_iff (elem : node.ElementData)
    (selector : css.SimpleSelector) :
    css.matches_simple_selector elem selector = true ↔
      ((∀ name, selector.tag_name = some name → elem.tag_name = name) ∧
       (∀ i, selector.id = some i → elem.id = some i) ∧
       (∀ c ∈ selector.class_names, elem.classes.contains c = true)) := by
  obtain ⟨tn, sid, cls⟩ := selector
  have hkey : css.matches_simple_selector elem ⟨tn, sid, cls⟩ =
      (!(tn.any (fun name => elem.tag_name != name)) &&
       (!(sid.any (fun i => elem.id != some i)) &&
        !(cls.any (fun c => !(elem.classes.contains c))))) := by
    simp only [css.matches_simple_selector]
    cases htn : tn.any (fun name => elem.tag_name != name) <;>
      cases hsid : sid.any (fun i => elem.id != some i) <;>
      cases hcls : cls.any (fun c => !(elem.classes.contains c)) <;>
      simp
  rw [hkey]
  simp only [Bool.and_eq_true, Bool.not_eq_true']
  constructor
  · rintro ⟨h1, h2, h3⟩
    refine ⟨?_, ?_, ?_⟩
    · intro name hname
      subst hname
      simpa using h1
    · intro i hi
      subst hi
      simpa using h2
    · intro c hc
      have := List.any_eq_false.mp h3 c hc
      simpa using this
  · rintro ⟨h1, h2, h3⟩
    refine ⟨?_, ?_, ?_⟩
    · cases tn with
      | none => simp [Option.any]
      | some v => simpa [Option.any] using (h1 v rfl)
    · cases sid with
      | none => simp [Option.any]
      | some v => simpa [Option.any] using (h2 v rfl)
    · exact List.any_eq_false.mpr (fun c hc => by simpa using h3 c hc)


namespace boxes

theorem allStrongGood_iff : ∀ l : List LayoutBox,
    allStrongGood l = true ↔ ∀ c ∈ l, strongGood c = true
  | [] => by simp [allStrongGood]
  | c :: cs => by
    simp only [allStrongGood, Bool.and_eq_true, allStrongGood_iff cs, List.mem_cons]
    constructor
    · rintro ⟨h1, h2⟩ x (rfl | hx)
      · exact h1
      · exact h2 x hx
    · intro h
      exact ⟨h c (Or.inl rfl), fun x hx => h x (Or.inr hx)⟩

theorem allWellWrapped_iff : ∀ l : List LayoutBox,
    allWellWrapped l = true ↔ ∀ c ∈ l, wellWrapped c = true
  | [] => by simp [allWellWrapped]
  | c :: cs => by
    simp only [allWellWrapped, Bool.and_eq_true, allWellWrapped_iff cs, List.mem_cons]
    constructor
    · rintro ⟨h1, h2⟩ x (rfl | hx)
      · exact h1
      · exact h2 x hx
    · intro h
      exact ⟨h c (Or.inl rfl), fun x hx => h x (Or.inr hx)⟩

theorem kindOf_mk_block (d : Dimensions) (n : style.StyledNode) (cs : List LayoutBox) :
    kindOf (LayoutBox.mk d (BoxType.BlockNode n) cs) = Kind.block := rfl

theorem kindOf_mk_inline (d : Dimensions) (n : style.StyledNode) (cs : List LayoutBox) :
    kindOf (LayoutBox.mk d (BoxType.InlineNode n) cs) = Kind.inline := rfl

theorem kindOf_mk_anon (d : Dimensions) (cs : List LayoutBox) :
    kindOf (LayoutBox.mk d BoxType.AnonymousBlock cs) = Kind.anon := rfl

theorem strongGood_mk_iff (d : Dimensions) (bt : BoxType) (children : List LayoutBox) :
    strongGood (LayoutBox.mk d bt children) = true ↔
      (nodeShapeOK (LayoutBox.mk d bt children) = true ∧
       ∀ c ∈ children, strongGood c = true) := by
  simp [strongGood, Bool.and_eq_true, allStrongGood_iff]

theorem nodeShapeOK_block_iff (d : Dimensions) (n : style.StyledNode)
    (children : List LayoutBox) :
    nodeShapeOK (LayoutBox.mk d (BoxType.BlockNode n) children) = true ↔
      ∀ c ∈ children, kindOf c ≠ Kind.inline := by
  simp [nodeShapeOK, LayoutBox.box_type, LayoutBox.children, List.all_eq_true]

theorem nodeShapeOK_anon_iff (d : Dimensions) (children : List LayoutBox) :
    nodeShapeOK (LayoutBox.mk d BoxType.AnonymousBlock children) = true ↔
      ∀ c ∈ children, kindOf c = Kind.inline := by
  simp [nodeShapeOK, LayoutBox.box_type, LayoutBox.children, List.all_eq_true]

theorem nodeShapeOK_inline (d : Dimensions) (n : style.StyledNode)
    (children : List LayoutBox) :
    nodeShapeOK (LayoutBox.mk d (BoxType.InlineNode n) children) = true := rfl

theorem pushIntoLast_append_singleton (b c : LayoutBox) :
    ∀ l : List LayoutBox,
      pushIntoLast (l ++ [c]) b =
        l ++ [LayoutBox.mk c.dimensions c.box_type (c.children ++ [b])]
  | [] => rfl
  | a :: l => by
    have ih := pushIntoLast_append_singleton b c l
    cases l with
    | nil => simp [pushIntoLast]
    | cons a' l' =>
      simp only [List.cons_append, pushIntoLast] at ih ⊢
      exact congrArg (List.cons a) ih

end boxes

namespace boxes

/-- Small helper: a box whose children are shape-correct inline boxes,
extended by one more shape-correct inline box, stays shape-correct. -/
theorem strongGood_anon_snoc (ld : Dimensions) (lcs : List LayoutBox) (b : LayoutBox)
    (h : strongGood (LayoutBox.mk ld BoxType.AnonymousBlock lcs) = true)
    (hb : strongGood b = true) (hbk : kindOf b = Kind.inline) :
    strongGood (LayoutBox.mk ld BoxType.AnonymousBlock (lcs ++ [b])) = true := by
  rw [strongGood_mk_iff] at h ⊢
  refine ⟨?_, ?_⟩
  · rw [nodeShapeOK_anon_iff]
    intro x hx
    rcases List.mem_append.mp hx with hx | hx
    · exact (nodeShapeOK_anon_iff ld lcs).mp h.1 x hx
    · rw [List.mem_singleton.mp hx]; exact hbk
  · intro x hx
    rcases List.mem_append.mp hx with hx | hx
    · exact h.2 x hx
    · rw [List.mem_singleton.mp hx]; exact hb

/-- The fresh anonymous container holding just `b` is shape-correct. -/
theorem strongGood_fresh_anon (b : LayoutBox) (hb : strongGood b = true)
    (hbk : kindOf b = Kind.inline) :
    strongGood (LayoutBox.mk Dimensions.default BoxType.AnonymousBlock ([] ++ [b])) = true := by
  exact strongGood_anon_snoc Dimensions.default [] b (by rfl) hb hbk

/-- `push_inline_child` keeps every node of a shape-correct non-anonymous
box shape-correct, and does not change the box's kind. -/
theorem push_inline_child_strongGood (root b : LayoutBox)
    (hroot : strongGood root = true) (hk : kindOf root ≠ Kind.anon)
    (hb : strongGood b = true) (hbk : kindOf b = Kind.inline) :
    strongGood (root.push_inline_child b) = true ∧
      kindOf (root.push_inline_child b) = kindOf root := by
  obtain ⟨d, bt, children⟩ := root
  cases bt with
  | AnonymousBlock => exact absurd (kindOf_mk_anon d children) hk
  | InlineNode n =>
    rw [show (LayoutBox.mk d (BoxType.InlineNode n) children).push_inline_child b =
        LayoutBox.mk d (BoxType.InlineNode n) (children ++ [b]) from rfl]
    refine ⟨?_, rfl⟩
    rw [strongGood_mk_iff] at hroot ⊢
    refine ⟨nodeShapeOK_inline d n _, ?_⟩
    intro x hx
    rcases List.mem_append.mp hx with hx | hx
    · exact hroot.2 x hx
    · rw [List.mem_singleton.mp hx]; exact hb
  | BlockNode n =>
    rw [strongGood_mk_iff] at hroot
    have hshape := (nodeShapeOK_block_iff d n children).mp hroot.1
    have hgood := hroot.2
    rw [show (LayoutBox.mk d (BoxType.BlockNode n) children).push_inline_child b =
        LayoutBox.mk d (BoxType.BlockNode n)
          (pushIntoLast
            (match children.getLast? with
             | some last =>
               if last.box_type.isAnonymous then children
               else children ++ [LayoutBox.new BoxType.AnonymousBlock]
             | none => children ++ [LayoutBox.new BoxType.AnonymousBlock]) b) from rfl]
    refine ⟨?_, rfl⟩
    split
    case h_2 hgl =>
      have hnil : children = [] := List.getLast?_eq_none_iff.mp hgl
      subst hnil
      rw [show pushIntoLast ([] ++ [LayoutBox.new BoxType.AnonymousBlock]) b =
          [LayoutBox.mk Dimensions.default BoxType.AnonymousBlock ([] ++ [b])] from rfl]
      rw [strongGood_mk_iff]
      refine ⟨?_, ?_⟩
      · rw [nodeShapeOK_block_iff]
        intro x hx
        rw [List.mem_singleton.mp hx]
        simp [kindOf, LayoutBox.box_type]
      · intro x hx
        rw [List.mem_singleton.mp hx]
        exact strongGood_fresh_anon b hb hbk
    case h_1 last hgl =>
      have hlmem : last ∈ children := List.mem_of_mem_getLast? hgl
      by_cases ha : last.box_type.isAnonymous = true
      · rw [if_pos ha]
        obtain ⟨ld, lbt, lcs⟩ := last
        cases lbt with
        | BlockNode m => simp [LayoutBox.box_type, BoxType.isAnonymous] at ha
        | InlineNode m => simp [LayoutBox.box_type, BoxType.isAnonymous] at ha
        | AnonymousBlock =>
          have hdec := List.dropLast_append_getLast? _ hgl
          rw [← hdec, pushIntoLast_append_singleton]
          rw [strongGood_mk_iff]
          refine ⟨?_, ?_⟩
          · rw [nodeShapeOK_block_iff]
            intro x hx
            rcases List.mem_append.mp hx with hx | hx
            · exact hshape x (List.dropLast_subset children hx)
            · rw [List.mem_singleton.mp hx]
              simp [kindOf, LayoutBox.box_type, LayoutBox.dimensions, LayoutBox.children]
          · intro x hx
            rcases List.mem_append.mp hx with hx | hx
            · exact hgood x (List.dropLast_subset children hx)
            · rw [List.mem_singleton.mp hx]
              exact strongGood_anon_snoc ld lcs b (hgood _ hlmem) hb hbk
      · have hb' : last.box_type.isAnonymous = false := by simpa using ha
        rw [hb']
        simp only [Bool.false_eq_true, if_false]
        rw [pushIntoLast_append_singleton]
        rw [strongGood_mk_iff]
        refine ⟨?_, ?_⟩
        · rw [nodeShapeOK_block_iff]
          intro x hx
          rcases List.mem_append.mp hx with hx | hx
          · exact hshape x hx
          · rw [List.mem_singleton.mp hx]
            simp [kindOf, LayoutBox.box_type, LayoutBox.new, LayoutBox.dimensions,
              LayoutBox.children]
        · intro x hx
          rcases List.mem_append.mp hx with hx | hx
          · exact hgood x hx
          · rw [List.mem_singleton.mp hx]
            exact strongGood_fresh_anon b hb hbk

end boxes

namespace boxes

/-- `build_layout_tree` fails (the source panics) exactly on a `display:none`
node. -/
theorem build_layout_tree_eq_none_iff : (s : style.StyledNode) →
    (build_layout_tree s = none ↔ s.display = style.Display.None)
  | .mk pm cs => by
    cases hd : style.StyledNode.display (.mk pm cs) <;> simp [build_layout_tree, hd]

mutual

/-- Every box built from a styled node is shape-correct, is never an
anonymous root, and is inline exactly when the node's display is inline. -/
theorem build_strongGood : (s : style.StyledNode) → (b : LayoutBox) →
    build_layout_tree s = some b →
    strongGood b = true ∧ kindOf b ≠ Kind.anon ∧
      (kindOf b = Kind.inline ↔ s.display = style.Display.Inline)
  | .mk pm children, b => fun h => by
    cases hd : style.StyledNode.display (.mk pm children) with
    | None => simp [build_layout_tree, hd] at h
    | Block =>
      simp only [build_layout_tree, hd, Option.some.injEq] at h
      subst h
      have hnew : strongGood
          (LayoutBox.new (BoxType.BlockNode (style.StyledNode.mk pm children))) = true := rfl
      have hres := build_children_strongGood children _ hnew (by intro hcon; cases hcon)
      refine ⟨hres.1, ?_, ?_⟩
      · rw [hres.2]
        intro hcon
        cases hcon
      · rw [hres.2]
        simp [LayoutBox.new, kindOf, LayoutBox.box_type]
    | Inline =>
      simp only [build_layout_tree, hd, Option.some.injEq] at h
      subst h
      have hnew : strongGood
          (LayoutBox.new (BoxType.InlineNode (style.StyledNode.mk pm children))) = true := rfl
      have hres := build_children_strongGood children _ hnew (by intro hcon; cases hcon)
      refine ⟨hres.1, ?_, ?_⟩
      · rw [hres.2]
        intro hcon
        cases hcon
      · rw [hres.2]
        simp [LayoutBox.new, kindOf, LayoutBox.box_type]

/-- The child loop preserves shape-correctness of the accumulated root and
never changes its kind. -/
theorem build_children_strongGood : (cs : List style.StyledNode) → (root : LayoutBox) →
    strongGood root = true → kindOf root ≠ Kind.anon →
    strongGood (build_children cs root) = true ∧
      kindOf (build_children cs root) = kindOf root
  | [], root => fun h _ => ⟨h, rfl⟩
  | c :: cs, root => fun h hk => by
    cases hd : c.display with
    | None =>
      simp only [build_children, hd]
      exact build_children_strongGood cs root h hk
    | Block =>
      cases hbc : build_layout_tree c with
      | none =>
        have hcon := (build_layout_tree_eq_none_iff c).mp hbc
        rw [hd] at hcon
        cases hcon
      | some bc =>
        have hres := build_strongGood c bc hbc
        have hbck : kindOf bc = Kind.block := by
          rcases hkb : kindOf bc with _ | _ | _
          · rfl
          · have := hres.2.2.mp hkb
            rw [hd] at this
            cases this
          · exact absurd hkb hres.2.1
        obtain ⟨rd, rbt, rcs⟩ := root
        simp only [build_children, hd, hbc, LayoutBox.dimensions, LayoutBox.box_type,
          LayoutBox.children]
        have hroot' : strongGood (LayoutBox.mk rd rbt (rcs ++ [bc])) = true := by
          rw [strongGood_mk_iff] at h ⊢
          cases rbt with
          | AnonymousBlock => exact absurd (kindOf_mk_anon rd rcs) hk
          | InlineNode m =>
            refine ⟨nodeShapeOK_inline _ _ _, ?_⟩
            intro x hx
            rcases List.mem_append.mp hx with hx | hx
            · exact h.2 x hx
            · rw [List.mem_singleton.mp hx]; exact hres.1
          | BlockNode m =>
            refine ⟨?_, ?_⟩
            · rw [nodeShapeOK_block_iff]
              intro x hx
              rcases List.mem_append.mp hx with hx | hx
              · exact (nodeShapeOK_block_iff _ _ _).mp h.1 x hx
              · rw [List.mem_singleton.mp hx, hbck]
                simp
            · intro x hx
              rcases List.mem_append.mp hx with hx | hx
              · exact h.2 x hx
              · rw [List.mem_singleton.mp hx]; exact hres.1
        have hrec := build_children_strongGood cs (LayoutBox.mk rd rbt (rcs ++ [bc]))
          hroot' (by intro hcon; exact hk hcon)
        exact ⟨hrec.1, hrec.2⟩
    | Inline =>
      cases hbc : build_layout_tree c with
      | none =>
        have hcon := (build_layout_tree_eq_none_iff c).mp hbc
        rw [hd] at hcon
        cases hcon
      | some bc =>
        have hres := build_strongGood c bc hbc
        have hbck : kindOf bc = Kind.inline := hres.2.2.mpr hd
        have hpush := push_inline_child_strongGood root bc h hk hres.1 hbck
        simp only [build_children, hd, hbc]
        have hrec := build_children_strongGood cs (root.push_inline_child bc)
          hpush.1 (by rw [hpush.2]; exact hk)
        exact ⟨hrec.1, by rw [hrec.2, hpush.2]⟩

end

mutual

/-- Shape-correct trees satisfy the amended no-mixed-siblings invariant. -/
theorem strongGood_wellWrapped : (b : LayoutBox) → strongGood b = true → wellWrapped b = true
  | .mk d bt children => fun h => by
    have h' := h
    rw [strongGood_mk_iff] at h'
    have hallW : allWellWrapped children = true :=
      allStrongGood_allWellWrapped children ((allStrongGood_iff children).mpr h'.2)
    cases bt with
    | InlineNode n =>
      rw [show wellWrapped (LayoutBox.mk d (BoxType.InlineNode n) children) =
          (true && allWellWrapped children) from rfl]
      simp [hallW]
    | BlockNode n =>
      rw [show wellWrapped (LayoutBox.mk d (BoxType.BlockNode n) children) =
          (!((children.any (fun c => kindOf c == Kind.block)) &&
             (children.any (fun c => kindOf c == Kind.inline))) &&
           allWellWrapped children) from rfl]
      have hno : ∀ c ∈ children, kindOf c ≠ Kind.inline :=
        (nodeShapeOK_block_iff d n children).mp h'.1
      have hfalse : children.any (fun c => kindOf c == Kind.inline) = false := by
        rw [List.any_eq_false]
        intro c hc
        simp [hno c hc]
      simp [hfalse, hallW]
    | AnonymousBlock =>
      rw [show wellWrapped (LayoutBox.mk d BoxType.AnonymousBlock children) =
          (!((children.any (fun c => kindOf c == Kind.block)) &&
             (children.any (fun c => kindOf c == Kind.inline))) &&
           allWellWrapped children) from rfl]
      have hin : ∀ c ∈ children, kindOf c = Kind.inline :=
        (nodeShapeOK_anon_iff d children).mp h'.1
      have hfalse : children.any (fun c => kindOf c == Kind.block) = false := by
        rw [List.any_eq_false]
        intro c hc
        simp [hin c hc]
      simp [hfalse, hallW]

theorem allStrongGood_allWellWrapped : (l : List LayoutBox) →
    allStrongGood l = true → allWellWrapped l = true
  | [] => fun _ => rfl
  | c :: cs => fun h => by
    have h' : strongGood c = true ∧ allStrongGood cs = true := by
      simpa [allStrongGood, Bool.and_eq_true] using h
    have h1 : wellWrapped c = true := strongGood_wellWrapped c h'.1
    have h2 : allWellWrapped cs = true := allStrongGood_allWellWrapped cs h'.2
    simp [allWellWrapped, h1, h2]

end

end boxes

namespace boxes

mutual

/-- `layout` always succeeds: the `get_style_node` panic is unreachable
because the block path only ever reads the style node of a `BlockNode` box,
and inline/anonymous boxes are no-ops. -/
theorem layout_isSome : (bx : LayoutBox) → (cb : Dimensions) → ∃ r, layout bx cb = some r
  | .mk dims bt children, cb => by
    cases bt with
    | BlockNode n =>
      have hgs : LayoutBox.get_style_node
          (.mk dims (BoxType.BlockNode n) children) = some n := rfl
      obtain ⟨⟨children', d'⟩, hp⟩ := layout_children_isSome children
        (calculate_block_position n (calculate_block_width n dims cb) cb)
      refine ⟨LayoutBox.mk (calculate_block_height n d') (BoxType.BlockNode n) children', ?_⟩
      simp only [layout, hgs]
      rw [hp]
    | InlineNode n => exact ⟨_, rfl⟩
    | AnonymousBlock => exact ⟨_, rfl⟩

/-- `layout_block_children` always succeeds. -/
theorem layout_children_isSome : (l : List LayoutBox) → (d : Dimensions) →
    ∃ r, layout_children l d = some r
  | [], d => ⟨([], d), rfl⟩
  | c :: rest, d => by
    obtain ⟨c', hc⟩ := layout_isSome c d
    obtain ⟨⟨rest', d'⟩, hr⟩ := layout_children_isSome rest
      { d with content :=
          { d.content with height := d.content.height + c'.dimensions.margin_box.height } }
    refine ⟨(c' :: rest', d'), ?_⟩
    simp only [layout_children, hc]
    rw [hr]

end

end boxes

open boxes in
/-- C2 counterexample.  The claim as stated fails: an inline-display root
with a block-display child and an inline-display child yields an
`InlineNode` box whose direct children are a `BlockNode` box and an
`InlineNode` box, so the built tree is not mix-free. -/
theorem c2_counterexample : (build_layout_tree c2root).map mixFree = some false := by
  decide

open boxes in
/-- C2 (amended).  For every styled node, the box tree returned by
`build_layout_tree` never contains a `BlockNode` or `AnonymousBlock` parent
with both a `BlockNode` child and an `InlineNode` child as direct,
unwrapped children; only an `InlineNode` parent (whose layout is
unimplemented) can mix. -/
theorem c2_no_mixed_siblings_outside_inline (s : style.StyledNode) (b : LayoutBox)
    (h : build_layout_tree s = some b) : wellWrapped b = true :=
  strongGood_wellWrapped b (build_strongGood s b h).1

open boxes in
/-- C2 witness: the amended invariant evaluated on a concrete tree. -/
theorem c2_no_mixed_siblings_outside_inline_witness :
    build_layout_tree c2wS = some c2wB ∧ wellWrapped c2wB = true :=
  ⟨rfl, c2_no_mixed_siblings_outside_inline c2wS c2wB rfl⟩

open boxes in
/-- C6.  Anonymous wrapping: a block parent with children of displays
`[inline, inline, block, inline]` builds exactly three children, in order an
`AnonymousBlock` holding the two inline boxes, the `BlockNode` box, and an
`AnonymousBlock` holding the trailing inline box. -/
theorem c6_anonymous_wrapping :
    (build_layout_tree c6parent).map summary2 =
      some [(Kind.anon, [Kind.inline, Kind.inline]), (Kind.block, []),
        (Kind.anon, [Kind.inline])] := by
  decide

open boxes in
/-- C7.  A root whose display resolves to `None` makes `build_layout_tree`
fail (the source panics) and never yields a tree; any other root always
yields a tree, and a `display:none` child is dropped by the child loop
before any recursion, so the failure is reachable only for the root
argument. -/
theorem c7_fatal_root_display_none (s : style.StyledNode) :
    (s.display = style.Display.None → build_layout_tree s = none) ∧
    (s.display ≠ style.Display.None → ∃ b, build_layout_tree s = some b) ∧
    (∀ (cs : List style.StyledNode) (root : LayoutBox),
      s.display = style.Display.None →
        build_children (s :: cs) root = build_children cs root) := by
  refine ⟨?_, ?_, ?_⟩
  · intro h
    exact (build_layout_tree_eq_none_iff s).mpr h
  · intro h
    cases hb : build_layout_tree s with
    | none => exact absurd ((build_layout_tree_eq_none_iff s).mp hb) h
    | some b => exact ⟨b, rfl⟩
  · intro cs root h
    simp [build_children, h]

open boxes in
/-- C7 witness: a `display:none` root fails, a block root with a
`display:none` child succeeds. -/
theorem c7_fatal_root_display_none_witness :
    build_layout_tree c7noneS = none ∧ (∃ b, build_layout_tree c7blockS = some b) ∧
      build_children [c7noneS] (LayoutBox.new BoxType.AnonymousBlock) =
        build_children [] (LayoutBox.new BoxType.AnonymousBlock) :=
  ⟨(c7_fatal_root_display_none c7noneS).1 (by decide),
   (c7_fatal_root_display_none c7blockS).2.1 (by decide),
   (c7_fatal_root_display_none c7noneS).2.2 [] (LayoutBox.new BoxType.AnonymousBlock)
     (by decide)⟩

open boxes in
/-- C9.  Laying out a tree built by `build_layout_tree` never reaches the
`AnonymousBlock` panic branch of `get_style_node`: `layout` (whose `none`
result models a panic) always returns a box, because it dispatches
`InlineNode` and `AnonymousBlock` boxes to no-ops and reads the style node
only in the `BlockNode` path. -/
theorem c9_layout_never_panics (s : style.StyledNode) (bx : LayoutBox) (cb : Dimensions)
    (_h : build_layout_tree s = some bx) : ∃ r, layout bx cb = some r :=
  layout_isSome bx cb

open boxes in
/-- C9 witness: layout of a concrete built tree succeeds. -/
theorem c9_layout_never_panics_witness :
    build_layout_tree c9root = some c9box ∧
      ∃ r, layout c9box Dimensions.default = some r :=
  ⟨rfl, c9_layout_never_panics c9root c9box Dimensions.default rfl⟩

open boxes in
/-- C5.  Vertical stacking: against a containing block with content at
(0,0), a block box with two block children of explicit heights 50 and 30 and
zero spacing lays out with child ys 0 and 50 and auto parent height 80; and
in general `layout_block_children` leaves the parent's content height grown
by exactly the sum of the laid-out children's margin-box heights, each added
immediately after its child in document order. -/
theorem c5_vertical_stacking :
    (((layout c5parent Dimensions.default).map (fun b =>
        (b.children.map (fun c => c.dimensions.content.y), b.dimensions.content.height)))
      = some ([0, 50], 80)) ∧
    ∀ (l : List LayoutBox) (d : Dimensions),
      (layout_children l d).map (fun r => r.2.content.height) =
        (layout_children l d).map (fun r =>
          d.content.height + (r.1.map (fun c => c.dimensions.margin_box.height)).sum) := by
  constructor
  · simp [layout, layout_children, c5parent, h50Props, h30Props,
      calculate_block_width, calculate_block_position, calculate_block_height,
      LayoutBox.get_style_node, LayoutBox.new, LayoutBox.dimensions, LayoutBox.children,
      style.StyledNode.lookup, style.StyledNode.value, style.StyledNode.specified_values,
      style.emptyProps, css.Value.to_px,
      Dimensions.default, Rect.default, EdgeSizes.default,
      Dimensions.margin_box, Dimensions.border_box, Dimensions.padding_box, Rect.expanded_by]
    norm_num
  · intro l
    induction l with
    | nil => intro d; simp [layout_children]
    | cons c rest ih =>
      intro d
      cases hc : layout c d with
      | none => simp [layout_children, hc]
      | some c' =>
        cases hr : layout_children rest
            { d with content :=
                { d.content with
                  height := d.content.height + c'.dimensions.margin_box.height } } with
        | none => simp [layout_children, hc, hr]
        | some p =>
          obtain ⟨rest', d'⟩ := p
          have hstep := ih
            { d with content :=
                { d.content with
                  height := d.content.height + c'.dimensions.margin_box.height } }
          rw [hr] at hstep
          simp only [Option.map_some'] at hstep
          simp only [layout_children, hc, hr, Option.map_some', List.map_cons, List.sum_cons]
          simp only [Option.some.injEq] at hstep ⊢
          rw [hstep]
          ring

open boxes in
/-- C1 evaluation.  On the claim's input (containing content width 800,
`width:300px`, both margins `auto`, nothing else declared) the code resolves
both margins to 400, not 250: the summed `total` omits the 300px width, so
the underflow is 800 rather than 500.  The content width does stay 300. -/
theorem c1_code_result :
    (calculate_block_width c1style Dimensions.default c1cb).margin.left = 400 ∧
    (calculate_block_width c1style Dimensions.default c1cb).margin.right = 400 ∧
    (calculate_block_width c1style Dimensions.default c1cb).content.width = 300 ∧
    (calculate_block_width c1style Dimensions.default c1cb).margin.left ≠ 250 := by
  refine ⟨?_, ?_, ?_, ?_⟩ <;>
    simp [calculate_block_width, style.StyledNode.lookup, style.StyledNode.value,
      style.StyledNode.specified_values, c1style, c1props, c1cb, css.Value.to_px,
      Dimensions.default, Rect.default, EdgeSizes.default] <;>
    norm_num

open boxes in
/-- C10.  An explicitly specified pixel width is never altered: whenever the
style resolves `width` to a pixel length `w`, the resolved content width is
exactly `w`, in every branch (only margins are adjusted, including the
over-constrained case). -/
theorem c10_explicit_width_preserved (style_node : style.StyledNode) (d cb : Dimensions)
    (w : ℚ) (hw : style_node.value "width" = some (css.Value.Length w css.Unit.Px)) :
    (calculate_block_width style_node d cb).content.width = w := by
  simp only [calculate_block_width, hw, Option.getD_some]
  split_ifs <;> simp_all [css.Value.to_px]

open boxes in
/-- C10 witness: the over-constrained case (width 300, padding-left 600,
containing width 100) still resolves content width 300. -/
theorem c10_explicit_width_preserved_witness :
    c10style.value "width" = some (css.Value.Length 300 css.Unit.Px) ∧
    (calculate_block_width c10style Dimensions.default c10cb).content.width = 300 :=
  ⟨by decide, c10_explicit_width_preserved c10style Dimensions.default c10cb 300 (by decide)⟩

set_option maxHeartbeats 3200000 in
open boxes in
/-- C4.  Auto-width resolution: when `width` resolves to `auto`, every auto
margin is zeroed; with `underflow` the containing content width minus the
pixel sum of margins, borders and paddings, a non-negative underflow becomes
the content width, while a negative one forces content width 0 and is added
onto the (zeroed) right margin. -/
theorem c4_auto_width (style_node : style.StyledNode) (d cb : Dimensions)
    (hw : resolvedWidth style_node = css.Value.Keyword "auto") :
    (calculate_block_width style_node d cb).margin.left =
        autoZeroed (style_node.lookup "margin-left" "margin" zeroLen) ∧
    (0 ≤ cb.content.width - edgeSum style_node →
      (calculate_block_width style_node d cb).content.width =
          cb.content.width - edgeSum style_node ∧
      (calculate_block_width style_node d cb).margin.right =
          autoZeroed (style_node.lookup "margin-right" "margin" zeroLen)) ∧
    (cb.content.width - edgeSum style_node < 0 →
      (calculate_block_width style_node d cb).content.width = 0 ∧
      (calculate_block_width style_node d cb).margin.right =
          autoZeroed (style_node.lookup "margin-right" "margin" zeroLen) +
            (cb.content.width - edgeSum style_node)) := by
  simp only [resolvedWidth] at hw
  simp only [calculate_block_width, hw, edgeSum, autoZeroed, zeroLen]
  simp only [ne_eq, eq_self_iff_true, not_true, false_and, if_false, if_true]
  generalize style_node.lookup "margin-left" "margin" (css.Value.Length 0 css.Unit.Px) = ml
  generalize style_node.lookup "margin-right" "margin" (css.Value.Length 0 css.Unit.Px) = mr
  generalize style_node.lookup "border-left-width" "border-width"
    (css.Value.Length 0 css.Unit.Px) = bl
  generalize style_node.lookup "border-right-width" "border-width"
    (css.Value.Length 0 css.Unit.Px) = br
  generalize style_node.lookup "padding-left" "padding" (css.Value.Length 0 css.Unit.Px) = pl
  generalize style_node.lookup "padding-right" "padding" (css.Value.Length 0 css.Unit.Px) = pr
  generalize cb.content.width = W
  split_ifs <;>
    refine ⟨?_, fun h => ⟨?_, ?_⟩, fun h => ⟨?_, ?_⟩⟩ <;>
    simp_all [css.Value.to_px] <;>
    linarith

open boxes in
/-- C4 witness: the fill case — containing width 800, no properties at all —
resolves content width 800. -/
theorem c4_auto_width_witness :
    resolvedWidth c4style = css.Value.Keyword "auto" ∧
    (calculate_block_width c4style Dimensions.default c4cb).content.width = 800 := by
  refine ⟨by decide, ?_⟩
  have h := c4_auto_width c4style Dimensions.default c4cb (by decide)
  have hsum : edgeSum c4style = 0 := by
    simp [edgeSum, zeroLen, c4style, style.StyledNode.lookup, style.StyledNode.value,
      style.StyledNode.specified_values, style.emptyProps, css.Value.to_px]
  have h8 : (0:ℚ) ≤ c4cb.content.width - edgeSum c4style := by
    simp [hsum, c4cb, Dimensions.default, Rect.default]
  rw [(h.2.1 h8).1, hsum]
  simp [c4cb, Dimensions.default, Rect.default]
